import Mathlib

/-!
# Verification of the shadowsocks client transport core

Shallow embedding of the Go sources (`shadowsocks/pipe.go` and the connection
file containing `RawAddr`, `DialWithRawAddr`, `Conn.Read`, `Conn.Write`,
`Conn.write`, `GetIv`, `GetKey`, `GetAndIncrChunkId`) together with models of
the collaborators that are not part of the sources (the cipher primitives,
`HmacSha1`, the OTA wrapping helpers and the standard-library `SplitHostPort`
and `Atoi`), plus theorems checking the specification's claims against the
embedding.

Go strings and byte slices are embedded as `List Nat` of byte values; machine
integer conversions (`byte(x)`, `uint16(x)`, `uint32` wraparound) are explicit
`% 2^w` operations.
-/

set_option autoImplicit false
set_option maxRecDepth 8192

/-! ## Byte-level helpers (encoding/binary, big-endian) -/

/-- Big-endian 16-bit encoding, as `binary.BigEndian.PutUint16`: two bytes,
high first. -/
def be16 (n : Nat) : List Nat := [n / 256 % 256, n % 256]

/-- Big-endian 32-bit encoding, as `binary.BigEndian.PutUint32`: four bytes,
high first. -/
def be32 (n : Nat) : List Nat :=
  [n / 2 ^ 24 % 256, n / 2 ^ 16 % 256, n / 2 ^ 8 % 256, n % 256]

/-- Big-endian 16-bit decoding of the first two list entries, as
`binary.BigEndian.Uint16` applied to a 2-byte header. -/
def be16val (l : List Nat) : Nat := 256 * l.headD 0 + (l.drop 1).headD 0

/-! ## Address encoder

`RawAddr` (source lines 38–63) splits `host:port`, parses the port, and
builds `[3, byte(len host)] ++ host ++ bigEndian16(uint16 port)`.
The standard library collaborators `net.SplitHostPort` and `strconv.Atoi`
are not part of the sources and are modelled from the spec. -/

/-- Splits a byte string at its last colon (byte 58): returns the part before
and after the last colon, or `none` when no colon occurs. Helper for the
`net.SplitHostPort` model. -/
def lastColonSplit : List Nat → Option (List Nat × List Nat)
  | [] => none
  | a :: rest =>
    match lastColonSplit rest with
    | some (h, p) => some (a :: h, p)
    | none => if a = 58 then some ([], rest) else none

/-- Modelled from the spec: `net.SplitHostPort` (standard library, not in the
sources) — "validate and parse host and numeric port; fail if the input
cannot be split into host/port". Splits at the last colon and rejects inputs
whose host part itself contains a colon (the unbracketed too-many-colons
error); the bracketed IPv6 literal forms, which no claim exercises, are not
modelled. -/
def splitHostPort (addr : List Nat) : Option (List Nat × List Nat) :=
  match lastColonSplit addr with
  | none => none
  | some (h, p) => if 58 ∈ h then none else some (h, p)

/-- Value of a decimal digit byte, `none` for non-digits. -/
def digitVal (b : Nat) : Option Nat :=
  if 48 ≤ b ∧ b ≤ 57 then some (b - 48) else none

/-- Accumulating decimal parse of digit bytes; fails on any non-digit. -/
def digitsValAux : Nat → List Nat → Option Nat
  | acc, [] => some acc
  | acc, b :: t =>
    match digitVal b with
    | none => none
    | some d => digitsValAux (10 * acc + d) t

/-- Decimal value of a nonempty all-digit byte string, `none` otherwise. -/
def digitsVal : List Nat → Option Nat
  | [] => none
  | l => digitsValAux 0 l

/-- Modelled from the spec: `strconv.Atoi` (standard library, not in the
sources) — "fail ... if the port is not a valid integer". Decimal digits with
an optional sign; the 64-bit range cutoff, which no claim exercises, is not
modelled. -/
def atoi (l : List Nat) : Option Int :=
  match l with
  | [] => none
  | b :: t =>
    if b = 45 then (digitsVal t).map (fun n => -(n : Int))
    else if b = 43 then (digitsVal t).map (fun n => (n : Int))
    else (digitsVal (b :: t)).map (fun n => (n : Int))

/-- Go's `uint16(port)` conversion of an `int`: reduction modulo `2^16`
(two's complement for negative values). -/
def intToU16 (p : Int) : Nat := (p % 65536).toNat

/-- Embeds `RawAddr` (source lines 38–63): split `host:port`, parse the port,
then `buf[0] = 3`, `buf[1] = byte(hostLen)`, the host bytes, and the port as
big-endian `uint16`. `none` stands for the error returns. -/
def RawAddr (addr : List Nat) : Option (List Nat) :=
  match splitHostPort addr with
  | none => none
  | some (host, portStr) =>
    match atoi portStr with
    | none => none
    | some port =>
      some ([3, host.length % 256] ++ host ++ be16 (intToU16 port))

/-! ### Address-encoder lemmas -/

theorem lastColonSplit_eq_none {l : List Nat} (h : 58 ∉ l) :
    lastColonSplit l = none := by
  induction l with
  | nil => rfl
  | cons a rest ih =>
    have ha : a ≠ 58 := fun hc => h (hc ▸ List.mem_cons_self a rest)
    have hrest : 58 ∉ rest := fun hc => h (List.mem_cons_of_mem a hc)
    simp [lastColonSplit, ih hrest, ha]

theorem lastColonSplit_append {host port : List Nat} (hp : 58 ∉ port) :
    lastColonSplit (host ++ 58 :: port) = some (host, port) := by
  induction host with
  | nil => simp [lastColonSplit, lastColonSplit_eq_none hp]
  | cons a rest ih => simp [lastColonSplit, ih]

theorem splitHostPort_append {host port : List Nat} (hh : 58 ∉ host)
    (hp : 58 ∉ port) :
    splitHostPort (host ++ 58 :: port) = some (host, port) := by
  simp [splitHostPort, lastColonSplit_append hp, hh]

theorem digitsValAux_not_colon {l : List Nat} {acc v : Nat}
    (h : digitsValAux acc l = some v) : 58 ∉ l := by
  induction l generalizing acc with
  | nil => simp
  | cons b t ih =>
    intro hmem
    rcases List.mem_cons.mp hmem with hb | ht
    · subst hb
      simp [digitsValAux, digitVal] at h
    · cases hd : digitVal b with
      | none => simp [digitsValAux, hd] at h
      | some d =>
        simp only [digitsValAux, hd] at h
        exact ih h ht

theorem digitsVal_not_colon {l : List Nat} {v : Nat}
    (h : digitsVal l = some v) : 58 ∉ l := by
  cases l with
  | nil => simp
  | cons b t => exact digitsValAux_not_colon h

theorem digitsVal_head_digit {b : Nat} {t : List Nat} {v : Nat}
    (h : digitsVal (b :: t) = some v) : 48 ≤ b ∧ b ≤ 57 := by
  by_cases hd : 48 ≤ b ∧ b ≤ 57
  · exact hd
  · simp [digitsVal, digitsValAux, digitVal, hd] at h

theorem atoi_of_digitsVal {l : List Nat} {v : Nat}
    (h : digitsVal l = some v) : atoi l = some (v : Int) := by
  cases l with
  | nil => simp [digitsVal] at h
  | cons b t =>
    have hb := digitsVal_head_digit h
    have hb45 : b ≠ 45 := by omega
    have hb43 : b ≠ 43 := by omega
    simp [atoi, hb45, hb43, h]

theorem intToU16_of_lt {v : Nat} (h : v < 65536) : intToU16 (v : Int) = v := by
  unfold intToU16
  rw [Int.emod_eq_of_lt (by positivity) (by exact_mod_cast h)]
  exact Int.toNat_natCast v

/-- C3: for every `host:port` input whose host is colon-free with length at
most 255 and whose port part is a decimal numeral of value below `2^16`,
`RawAddr` returns `[3, len host] ++ host ++ bigEndian16 port`. -/
theorem rawAddr_encodes (host portStr : List Nat) (port : Nat)
    (hh : 58 ∉ host) (hlen : host.length ≤ 255)
    (hp : digitsVal portStr = some port) (hport : port < 65536) :
    RawAddr (host ++ 58 :: portStr) =
      some ([3, host.length] ++ host ++ [port / 256, port % 256]) := by
  have hpc : 58 ∉ portStr := digitsVal_not_colon hp
  have hdiv : port / 256 < 256 := by omega
  simp only [RawAddr, splitHostPort_append hh hpc, atoi_of_digitsVal hp,
    intToU16_of_lt hport]
  simp [be16, Nat.mod_eq_of_lt (by omega : host.length < 256),
    Nat.mod_eq_of_lt hdiv]

/-- Closed instance of `rawAddr_encodes` at host `"example.com"` (11 bytes)
and port `"443"`: the record is `03 0B` ++ `"example.com"` ++ `01 BB`. -/
theorem rawAddr_encodes_witness :
    RawAddr ([101, 120, 97, 109, 112, 108, 101, 46, 99, 111, 109] ++
        58 :: [52, 52, 51]) =
      some ([3, 11] ++ [101, 120, 97, 109, 112, 108, 101, 46, 99, 111, 109] ++
        [1, 187]) := by
  have h := rawAddr_encodes
    [101, 120, 97, 109, 112, 108, 101, 46, 99, 111, 109] [52, 52, 51] 443
    (by decide) (by decide) (by decide) (by decide)
  simpa using h

/-- Shared general form: for any colon-free host and decimal port below
`2^16`, `RawAddr` succeeds and stores `len host % 256` in the length byte. -/
theorem rawAddr_encodes' (host portStr : List Nat) (port : Nat)
    (hh : 58 ∉ host)
    (hp : digitsVal portStr = some port) (hport : port < 65536) :
    RawAddr (host ++ 58 :: portStr) =
      some ([3, host.length % 256] ++ host ++ [port / 256, port % 256]) := by
  have hpc : 58 ∉ portStr := digitsVal_not_colon hp
  have hdiv : port / 256 < 256 := by omega
  simp only [RawAddr, splitHostPort_append hh hpc, atoi_of_digitsVal hp,
    intToU16_of_lt hport]
  simp [be16, Nat.mod_eq_of_lt hdiv]

/-- C8 counterexample: for a host of 256 `'a'` bytes and port `"80"`,
`RawAddr` does not fail; it returns a record whose length byte is `0`
(`256 % 256`). -/
theorem rawAddr_long_host_counterexample :
    RawAddr (List.replicate 256 97 ++ 58 :: [56, 48]) =
      some ([3, 0] ++ List.replicate 256 97 ++ [0, 80]) := by
  have h := rawAddr_encodes' (List.replicate 256 97) [56, 48] 80
    (fun hmem => absurd (List.eq_of_mem_replicate hmem) (by decide))
    (by decide) (by decide)
  exact h

/-- C8 (amended): for every `host:port` whose host part is longer than 255
bytes (colon-free, decimal port below `2^16`), `RawAddr` succeeds anyway and
the 1-byte length field holds `len host % 256`. -/
theorem rawAddr_long_host (host portStr : List Nat) (port : Nat)
    (hh : 58 ∉ host) (hlong : 255 < host.length)
    (hp : digitsVal portStr = some port) (hport : port < 65536) :
    RawAddr (host ++ 58 :: portStr) =
      some ([3, host.length % 256] ++ host ++ [port / 256, port % 256]) :=
  rawAddr_encodes' host portStr port hh hp hport

/-- Closed instance of `rawAddr_long_host` at a 257-byte host and port
`"99"`: the record's length byte is `257 % 256 = 1`. -/
theorem rawAddr_long_host_witness :
    RawAddr (List.replicate 257 98 ++ 58 :: [57, 57]) =
      some ([3, 1] ++ List.replicate 257 98 ++ [0, 99]) := by
  have h := rawAddr_long_host (List.replicate 257 98) [57, 57] 99
    (fun hmem => absurd (List.eq_of_mem_replicate hmem) (by decide))
    (by simp) (by decide) (by decide)
  exact h

/-! ## Relay loops (`shadowsocks/pipe.go`)

The plain relay `PipeThenClose` (lines 18–46) and the OTA-verifying relay
`PipeThenCloseOta` (lines 49–99). The transport read side of `src` is
embedded as a trace: for the plain relay, the list of `(bytes, error?)`
results its successive `Read` calls produce (Go's `Read` may return bytes
together with an error); for the OTA relay, whose reads all go through
`io.ReadFull`, as the flat plaintext byte stream, with stream exhaustion
standing for EOF/short-read (both break the loop). `dst` is embedded as the
accumulated list of delivered writes plus a failure oracle `wf` indexed by
the loop iteration; a failed write delivers nothing. `SetReadTimeout` and
the leaky-buffer bookkeeping (pool buffer vs one-off allocation) have no
effect on the values computed and are not represented. The `Bool` in each
result is whether `dst` was closed (the `defer dst.Close()`). -/

/-- Embeds `PipeThenClose` (source lines 18–46): read a `(bytes, error?)`
result from `src`; if bytes were read, write them to `dst` (a write failure
breaks); if the read also returned an error, break after that write; on
stream end, break. Returns the bytes delivered to `dst` and the closed
flag. -/
def pipeThenClose (wf : Nat → Bool) : List (List Nat × Bool) → Nat →
    List Nat → List Nat × Bool
  | [], _, acc => (acc, true)
  | (bs, isErr) :: rest, i, acc =>
    if bs.length > 0 then
      if wf i then (acc, true)
      else if isErr then (acc ++ bs, true)
      else pipeThenClose wf rest (i + 1) (acc ++ bs)
    else if isErr then (acc, true) else pipeThenClose wf rest (i + 1) acc

/-- Embeds `PipeThenCloseOta` (source lines 49–99): repeatedly read a
12-byte header (2-byte big-endian data length, 10-byte expected tag), then
`dataLen` data bytes; fetch-and-increment the `uint32` chunk id; recompute
`HmacSha1(iv ++ bigEndian32 chunkId, data)`; on mismatch stop, else forward
the data to `dst` and continue. `H` is the `HmacSha1` collaborator, `i` the
loop iteration counter, `id` the `Conn`'s chunk-id field, `acc` the chunks
delivered to `dst` so far. Returns the delivered chunks, the final chunk-id
field, and the closed flag. -/
def relayOta (H : List Nat → List Nat → List Nat) (wf : Nat → Bool)
    (iv : List Nat) : Nat → Nat → List Nat → List (List Nat) →
    List (List Nat) × Nat × Bool
  | i, id, s, acc =>
    if h12 : 12 ≤ s.length then
      let dataLen := be16val (s.take 2)
      let expected := (s.take 12).drop 2
      let body := s.drop 12
      if hd : dataLen ≤ body.length then
        let dataBuf := body.take dataLen
        let nextId := (id + 1) % 2 ^ 32
        let actual := H (iv ++ be32 (id % 2 ^ 32)) dataBuf
        if expected = actual then
          if wf i then (acc, nextId, true)
          else relayOta H wf iv (i + 1) nextId (body.drop dataLen)
            (acc ++ [dataBuf])
        else (acc, nextId, true)
      else (acc, id, true)
    else (acc, id, true)
termination_by _ _ s _ => s.length
decreasing_by
  simp only [List.length_drop]
  omega

/-- Spec-side construction for the tag-schedule claims: the wire stream of
correctly tagged OTA chunks for payload list `ds`, starting at chunk id
`id`. -/
def otaChunks (H : List Nat → List Nat → List Nat) (iv : List Nat) :
    Nat → List (List Nat) → List Nat
  | _, [] => []
  | id, d :: ds =>
    be16 d.length ++ H (iv ++ be32 (id % 2 ^ 32)) d ++ d ++
      otaChunks H iv ((id + 1) % 2 ^ 32) ds

/-! ### Relay lemmas -/

theorem be16val_be16 {n : Nat} (hn : n < 65536) : be16val (be16 n) = n := by
  simp only [be16, be16val, List.headD, List.drop]
  omega

theorem relayOta_parse (H : List Nat → List Nat → List Nat) (wf : Nat → Bool)
    (iv : List Nat) (i id n : Nat) (tag data rest : List Nat)
    (acc : List (List Nat))
    (htag : tag.length = 10) (hdata : data.length = n) (hn : n < 65536) :
    relayOta H wf iv i id (be16 n ++ tag ++ data ++ rest) acc =
      if tag = H (iv ++ be32 (id % 2 ^ 32)) data then
        if wf i then (acc, (id + 1) % 2 ^ 32, true)
        else relayOta H wf iv (i + 1) ((id + 1) % 2 ^ 32) rest (acc ++ [data])
      else (acc, (id + 1) % 2 ^ 32, true) := by
  have hbe : (be16 n).length = 2 := rfl
  have hs : be16 n ++ tag ++ data ++ rest =
      (be16 n ++ tag) ++ (data ++ rest) := by simp
  have hlen12 : (be16 n ++ tag).length = 12 := by simp [hbe, htag]
  rw [relayOta]
  have h12 : 12 ≤ (be16 n ++ tag ++ data ++ rest).length := by
    simp [hbe, htag]
    omega
  rw [dif_pos h12]
  have htake2 : (be16 n ++ tag ++ data ++ rest).take 2 = be16 n := by
    rw [List.append_assoc, List.append_assoc, List.take_left' hbe]
  have htake12 : (be16 n ++ tag ++ data ++ rest).take 12 = be16 n ++ tag := by
    rw [hs, List.take_left' hlen12]
  have hdrop12 : (be16 n ++ tag ++ data ++ rest).drop 12 = data ++ rest := by
    rw [hs, List.drop_left' hlen12]
  simp only [htake2, htake12, hdrop12, be16val_be16 hn]
  have hdtag : (be16 n ++ tag).drop 2 = tag := List.drop_left' hbe
  have hle : n ≤ (data ++ rest).length := by simp [hdata]
  rw [dif_pos hle]
  simp only [hdtag, List.take_left' hdata, List.drop_left' hdata]

theorem relayOta_nil (H : List Nat → List Nat → List Nat) (wf : Nat → Bool)
    (iv : List Nat) (i id : Nat) (acc : List (List Nat)) :
    relayOta H wf iv i id [] acc = (acc, id, true) := by
  rw [relayOta]
  simp

theorem relayOta_otaChunks_append (H : List Nat → List Nat → List Nat)
    (iv : List Nat) (Hlen : ∀ k m, (H k m).length = 10)
    (ds : List (List Nat)) (hds : ∀ d ∈ ds, d.length < 65536) :
    ∀ i id suffix acc, id < 2 ^ 32 →
      relayOta H (fun _ => false) iv i id (otaChunks H iv id ds ++ suffix) acc =
        relayOta H (fun _ => false) iv (i + ds.length)
          ((id + ds.length) % 2 ^ 32) suffix (acc ++ ds) := by
  induction ds with
  | nil =>
    intro i id suffix acc hid
    simp only [otaChunks, List.nil_append, List.length_nil, Nat.add_zero,
      List.append_nil]
    rw [Nat.mod_eq_of_lt hid]
  | cons d ds ih =>
    intro i id suffix acc hid
    have hd : d.length < 65536 := hds d (List.mem_cons_self d ds)
    have hds' : ∀ x ∈ ds, x.length < 65536 :=
      fun x hx => hds x (List.mem_cons_of_mem d hx)
    have hidm : id % 2 ^ 32 = id := Nat.mod_eq_of_lt hid
    have hstream : otaChunks H iv id (d :: ds) ++ suffix =
        be16 d.length ++ H (iv ++ be32 (id % 2 ^ 32)) d ++ d ++
          (otaChunks H iv ((id + 1) % 2 ^ 32) ds ++ suffix) := by
      simp [otaChunks]
    rw [hstream, relayOta_parse H (fun _ => false) iv i id d.length _ d _ acc
      (Hlen _ _) rfl hd]
    rw [if_pos rfl, if_neg (by simp)]
    rw [ih hds' (i + 1) ((id + 1) % 2 ^ 32) suffix (acc ++ [d])
      (Nat.mod_lt _ (by norm_num))]
    have harith : ((id + 1) % 2 ^ 32 + ds.length) % 2 ^ 32 =
        (id + (ds.length + 1)) % 2 ^ 32 := by
      rw [Nat.mod_add_mod]
      ring_nf
    have hlist : (acc ++ [d]) ++ ds = acc ++ d :: ds := by simp
    rw [harith, hlist]
    have hi : i + 1 + ds.length = i + (d :: ds).length := by
      simp [List.length_cons]
      omega
    rw [hi]
    simp [List.length_cons]

theorem pipeThenClose_closes (wf : Nat → Bool) :
    ∀ (reads : List (List Nat × Bool)) (i : Nat) (acc : List Nat),
      (pipeThenClose wf reads i acc).2 = true := by
  intro reads
  induction reads with
  | nil => intro i acc; simp [pipeThenClose]
  | cons r rest ih =>
    intro i acc
    obtain ⟨bs, isErr⟩ := r
    rw [pipeThenClose]
    by_cases hlen : bs.length > 0
    · by_cases hwf : wf i
      · simp [hlen, hwf]
      · by_cases herr : isErr
        · simp [hlen, hwf, herr]
        · simp [hlen, hwf, herr, ih]
    · by_cases herr : isErr
      · simp [hlen, herr]
      · simp [hlen, herr, ih]

/-- C7: in the plain relay, a read that returns bytes together with an error
has its bytes written to `dst` (when that write succeeds) before the loop
stops, and the relay closes `dst` on every exit. -/
theorem pipeThenClose_drain (wf : Nat → Bool) (i : Nat) (acc bs : List Nat)
    (rest : List (List Nat × Bool)) (reads2 : List (List Nat × Bool))
    (i2 : Nat) (acc2 : List Nat)
    (hb : bs ≠ []) (hw : wf i = false) :
    pipeThenClose wf ((bs, true) :: rest) i acc = (acc ++ bs, true) ∧
    (pipeThenClose wf reads2 i2 acc2).2 = true := by
  constructor
  · rw [pipeThenClose]
    simp [List.length_pos.mpr hb, hw]
  · exact pipeThenClose_closes wf reads2 i2 acc2

/-- Closed instance of `pipeThenClose_drain`: the read result `([7], error)`
is drained into `dst` before the relay stops, and a two-result trace ends
with `dst` closed. -/
theorem pipeThenClose_drain_witness :
    pipeThenClose (fun _ => false) [([7], true)] 0 [1] = ([1, 7], true) ∧
    (pipeThenClose (fun _ => false) [([2], false), ([], true)] 0 []).2 =
      true :=
  pipeThenClose_drain (fun _ => false) 0 [1] [7] []
    [([2], false), ([], true)] 0 [] (by decide) rfl

/-- C1: in the OTA-verifying relay, a chunk whose 10-byte header tag differs
from the recomputed `HmacSha1(iv ++ bigEndian32 chunkId, data)` contributes
zero bytes to `dst` and terminates the loop (with `dst` closed); the chunk's
data is forwarded and the loop continues only when the tags are equal. -/
theorem relayOta_tag_mismatch_stops (H : List Nat → List Nat → List Nat)
    (wf : Nat → Bool) (iv : List Nat) (i id n : Nat)
    (tag data rest : List Nat) (acc : List (List Nat))
    (htag : tag.length = 10) (hdata : data.length = n) (hn : n < 65536) :
    (tag ≠ H (iv ++ be32 (id % 2 ^ 32)) data →
      relayOta H wf iv i id (be16 n ++ tag ++ data ++ rest) acc =
        (acc, (id + 1) % 2 ^ 32, true)) ∧
    (tag = H (iv ++ be32 (id % 2 ^ 32)) data → wf i = false →
      relayOta H wf iv i id (be16 n ++ tag ++ data ++ rest) acc =
        relayOta H wf iv (i + 1) ((id + 1) % 2 ^ 32) rest (acc ++ [data])) := by
  constructor
  · intro hmis
    rw [relayOta_parse H wf iv i id n tag data rest acc htag hdata hn,
      if_neg hmis]
  · intro heq hwf
    rw [relayOta_parse H wf iv i id n tag data rest acc htag hdata hn,
      if_pos heq, hwf]
    simp

/-- Closed instance of `relayOta_tag_mismatch_stops`: a single chunk carrying
an all-zero tag instead of the recomputed tag is not forwarded and stops the
relay. -/
theorem relayOta_tag_mismatch_stops_witness :
    relayOta (fun k m => List.replicate 10 ((k.sum + m.sum) % 256))
        (fun _ => false) [1, 2] 1 0
        (be16 1 ++ List.replicate 10 0 ++ [5] ++ []) [] =
      ([], 1, true) :=
  (relayOta_tag_mismatch_stops
    (fun k m => List.replicate 10 ((k.sum + m.sum) % 256))
    (fun _ => false) [1, 2] 1 0 1 (List.replicate 10 0) [5] [] []
    (by decide) (by decide) (by decide)).1 (by decide)

/-- C5: run against a stream of chunks whose `N`-th tag (`N = 1, 2, ...`) is
`HmacSha1` over exactly the chunk's data with key `iv ++ bigEndian32 (N-1)`,
the relay (receive counter starting at 0) accepts every chunk and its counter
after `N` chunks is `N % 2^32` — one increment per chunk; and a following
chunk whose tag is anything other than `HmacSha1(iv ++ bigEndian32 (N % 2^32),
data)` is rejected. -/
theorem relayOta_tag_schedule (H : List Nat → List Nat → List Nat)
    (Hlen : ∀ k m, (H k m).length = 10) (iv : List Nat)
    (ds : List (List Nat)) (hds : ∀ d ∈ ds, d.length < 65536) :
    relayOta H (fun _ => false) iv 1 0 (otaChunks H iv 0 ds) [] =
      (ds, ds.length % 2 ^ 32, true) ∧
    ∀ (n : Nat) (tag data rest : List Nat), tag.length = 10 →
      data.length = n → n < 65536 →
      tag ≠ H (iv ++ be32 (ds.length % 2 ^ 32)) data →
      relayOta H (fun _ => false) iv 1 0
          (otaChunks H iv 0 ds ++ (be16 n ++ tag ++ data ++ rest)) [] =
        (ds, (ds.length + 1) % 2 ^ 32, true) := by
  constructor
  · have h := relayOta_otaChunks_append H iv Hlen ds hds 1 0 [] []
      (by norm_num)
    rw [List.append_nil] at h
    rw [h, relayOta_nil]
    simp
  · intro n tag data rest htag hdata hn hmis
    rw [relayOta_otaChunks_append H iv Hlen ds hds 1 0 _ [] (by norm_num)]
    have hmod : (0 + ds.length) % 2 ^ 32 % 2 ^ 32 = ds.length % 2 ^ 32 := by
      rw [Nat.zero_add, Nat.mod_mod_of_dvd _ (dvd_refl _)]
    rw [relayOta_parse H (fun _ => false) iv (1 + ds.length)
      ((0 + ds.length) % 2 ^ 32) n tag data rest ([] ++ ds) htag hdata hn]
    rw [hmod, if_neg hmis]
    rw [Nat.mod_add_mod, Nat.zero_add]
    simp

/-- Closed instance of `relayOta_tag_schedule`: two correctly tagged chunks
`[5]` and `[6]` are both forwarded and the receive counter ends at 2. -/
theorem relayOta_tag_schedule_witness :
    relayOta (fun k m => List.replicate 10 ((k.sum + m.sum) % 256))
        (fun _ => false) [1, 2] 1 0
        (otaChunks (fun k m => List.replicate 10 ((k.sum + m.sum) % 256))
          [1, 2] 0 [[5], [6]]) [] =
      ([[5], [6]], 2, true) :=
  (relayOta_tag_schedule
    (fun k m => List.replicate 10 ((k.sum + m.sum) % 256))
    (fun k m => by simp) [1, 2] [[5], [6]] (by decide)).1

/-! ## Encrypted connection (`Conn`)

The `Conn` struct composes a transport connection with a `Cipher`. The
transport's read side is embedded as a list of byte segments (one per
underlying `Read` result, in order; exhaustion stands for EOF) and its write
side as the list of writes made. The stream-cipher primitive is the external
collaborator "given a cipher session, transform N bytes in place": it is
embedded as a keystream parameter `ks : key → iv → position → byte → byte`
together with a per-direction `CipherSt` holding the seeding IV and the
stream position, which each call advances by the bytes processed. -/

/-- One direction's stream-transform state: the IV it was seeded from and the
current stream position. Models the opaque `enc` / `dec` fields of
`Cipher`. -/
structure CipherSt where
  iv : List Nat
  pos : Nat
deriving DecidableEq, Repr

/-- Modelled from the spec: `Encrypt`/`Decrypt` (cipher primitive, not in
the sources) — "transform `len(src)` bytes from `src` into `dst` using the
respective stream state; stateful — each call advances the stream position".
`ks` is the abstract keystream. -/
def xfrm (ks : List Nat → List Nat → Nat → Nat → Nat) (key : List Nat)
    (st : CipherSt) (src : List Nat) : List Nat × CipherSt :=
  (src.mapIdx (fun j x => ks key st.iv (st.pos + j) x),
    ⟨st.iv, st.pos + src.length⟩)

/-- Embeds the `Conn` struct (and the `Cipher` fields it reaches through):
transport read segments and writes, `key`, `info.ivLen`, the recorded
connection `iv` (`[]` = unset, as the source's `len(c.iv) == 0` check),
the two lazily initialized transform states, the `ota` flag and the `uint32`
`chunkId` counter. -/
structure SSConn where
  transport : List (List Nat)
  sent : List (List Nat)
  key : List Nat
  ivLen : Nat
  iv : List Nat
  enc : Option CipherSt
  dec : Option CipherSt
  ota : Bool
  chunkId : Nat
deriving DecidableEq, Repr

/-- A single transport `Read` into a buffer of size `k`: up to `k` bytes
from the front segment (standard short-read semantics); `none` stands for a
read error/EOF with no bytes. -/
def rawRead : List (List Nat) → Nat → Option (List Nat × List (List Nat))
  | [], _ => none
  | seg :: rest, k =>
    some (seg.take k,
      if k < seg.length then seg.drop k :: rest else rest)

/-- `io.ReadFull`: read exactly `k` bytes, retrying short reads across
segments; `none` stands for EOF or a short-read error before `k` bytes. -/
def readFull : List (List Nat) → Nat → Option (List Nat × List (List Nat))
  | segs, 0 => some ([], segs)
  | [], _ + 1 => none
  | seg :: rest, k + 1 =>
    if seg.length < k + 1 then
      match readFull rest (k + 1 - seg.length) with
      | none => none
      | some (bs, segs2) => some (seg ++ bs, segs2)
    else
      some (seg.take (k + 1),
        if k + 1 < seg.length then seg.drop (k + 1) :: rest else rest)

/-- The tail of `Conn.Read` (source lines 150–161): one transport read of up
to `blen` bytes, decrypt exactly the bytes read, return them with the
advanced decrypt state. The scratch-buffer selection (pool buffer vs one-off
allocation, lines 150–155) affects no computed value and is not represented.
Result is `(plaintext, error?, connection)`. -/
def connReadBody (ks : List Nat → List Nat → Nat → Nat → Nat) (c : SSConn)
    (blen : Nat) : List Nat × Bool × SSConn :=
  match rawRead c.transport blen with
  | none => ([], true, c)
  | some (bs, tr2) =>
    match c.dec with
    | none => ([], true, c)
    | some st =>
      let p := xfrm ks c.key st bs
      (p.1, false, { c with transport := tr2, dec := some p.2 })

/-- Embeds `Conn.Read` (source lines 123–162): if `dec` is unset, read
exactly `ivLen` bytes via `io.ReadFull`, initialize the decrypt state from
them (`initDecrypt`, modelled from the spec: it fails only for a wrong IV
length, which cannot occur here since `readFull` hands it exactly `ivLen`
bytes), and record them as the connection IV when none is recorded; then
perform the normal read. -/
def connRead (ks : List Nat → List Nat → Nat → Nat → Nat) (c : SSConn)
    (blen : Nat) : List Nat × Bool × SSConn :=
  match c.dec with
  | some _ => connReadBody ks c blen
  | none =>
    match readFull c.transport c.ivLen with
    | none => ([], true, c)
    | some (ivb, tr2) =>
      connReadBody ks
        { c with
          transport := tr2
          dec := some (CipherSt.mk ivb 0)
          iv := if c.iv = [] then ivb else c.iv } blen

/-! ### Transport stream lemmas -/

theorem rawRead_spec {segs segs2 : List (List Nat)} {k : Nat} {bs : List Nat}
    (h : rawRead segs k = some (bs, segs2)) :
    bs = (segs.flatten).take bs.length ∧
    segs2.flatten = (segs.flatten).drop bs.length ∧ bs.length ≤ k := by
  cases segs with
  | nil => simp [rawRead] at h
  | cons seg rest =>
    simp only [rawRead, Option.some.injEq, Prod.mk.injEq] at h
    obtain ⟨hbs, hsegs2⟩ := h
    by_cases hk : k < seg.length
    · subst hbs
      rw [if_pos hk] at hsegs2
      have hlen : (seg.take k).length = k := by
        simp [Nat.min_eq_left (Nat.le_of_lt hk)]
      refine ⟨?_, ?_, by rw [hlen]⟩
      · rw [hlen, List.flatten_cons, List.take_append_eq_append_take,
          Nat.sub_eq_zero_of_le (Nat.le_of_lt hk)]
        simp
      · subst hsegs2
        rw [hlen, List.flatten_cons, List.flatten_cons,
          List.drop_append_eq_append_drop,
          Nat.sub_eq_zero_of_le (Nat.le_of_lt hk)]
        simp
    · subst hbs
      rw [if_neg hk] at hsegs2
      push_neg at hk
      have htk : seg.take k = seg := List.take_of_length_le hk
      have hlen : (seg.take k).length = seg.length := by rw [htk]
      refine ⟨?_, ?_, by rw [hlen]; exact hk⟩
      · rw [hlen, htk, List.flatten_cons, List.take_append_eq_append_take]
        simp
      · subst hsegs2
        rw [hlen, List.flatten_cons, List.drop_append_eq_append_drop]
        simp

theorem readFull_spec :
    ∀ (segs : List (List Nat)) (k : Nat) {bs : List Nat}
      {segs2 : List (List Nat)}, readFull segs k = some (bs, segs2) →
      bs = (segs.flatten).take k ∧ bs.length = k ∧
      segs2.flatten = (segs.flatten).drop k := by
  intro segs
  induction segs with
  | nil =>
    intro k bs segs2 h
    cases k with
    | zero => simp only [readFull, Option.some.injEq, Prod.mk.injEq] at h
              obtain ⟨h1, h2⟩ := h
              subst h1; subst h2; simp
    | succ k => simp [readFull] at h
  | cons seg rest ih =>
    intro k bs segs2 h
    cases k with
    | zero => simp only [readFull, Option.some.injEq, Prod.mk.injEq] at h
              obtain ⟨h1, h2⟩ := h
              subst h1; subst h2; simp
    | succ k =>
      rw [readFull] at h
      by_cases hshort : seg.length < k + 1
      · rw [if_pos hshort] at h
        cases hrec : readFull rest (k + 1 - seg.length) with
        | none => rw [hrec] at h; simp at h
        | some p =>
          obtain ⟨bs', segs2'⟩ := p
          rw [hrec] at h
          simp only [Option.some.injEq, Prod.mk.injEq] at h
          obtain ⟨hbs, hsegs2⟩ := h
          obtain ⟨ih1, ih2, ih3⟩ := ih (k + 1 - seg.length) hrec
          have hle : seg.length ≤ k + 1 := Nat.le_of_lt hshort
          constructor
          · rw [← hbs] at *
            rw [List.flatten_cons, List.take_append_eq_append_take,
              List.take_of_length_le hle, ← ih1]
          · constructor
            · rw [← hbs]
              simp only [List.length_append, ih2]
              omega
            · subst hsegs2
              rw [ih3, List.flatten_cons, List.drop_append_eq_append_drop,
                List.drop_of_length_le hle, List.nil_append]
      · rw [if_neg hshort] at h
        push_neg at hshort
        simp only [Option.some.injEq, Prod.mk.injEq] at h
        obtain ⟨hbs, hsegs2⟩ := h
        have hlen : (seg.take (k + 1)).length = k + 1 := by
          simp [Nat.min_eq_left hshort]
        constructor
        · rw [← hbs, List.flatten_cons, List.take_append_eq_append_take,
            Nat.sub_eq_zero_of_le hshort]
          simp
        constructor
        · rw [← hbs]; exact hlen
        · by_cases heq : k + 1 < seg.length
          · rw [if_pos heq] at hsegs2
            subst hsegs2
            rw [List.flatten_cons, List.flatten_cons,
              List.drop_append_eq_append_drop,
              Nat.sub_eq_zero_of_le hshort]
            simp
          · rw [if_neg heq] at hsegs2
            subst hsegs2
            have hexact : seg.length = k + 1 := by omega
            rw [List.flatten_cons, List.drop_append_eq_append_drop, hexact]
            simp
            omega

theorem readFull_total :
    ∀ (segs : List (List Nat)) (k : Nat), k ≤ segs.flatten.length →
      ∃ bs segs2, readFull segs k = some (bs, segs2) := by
  intro segs
  induction segs with
  | nil =>
    intro k hk
    cases k with
    | zero => exact ⟨[], [], rfl⟩
    | succ k => simp at hk
  | cons seg rest ih =>
    intro k hk
    cases k with
    | zero => exact ⟨[], seg :: rest, rfl⟩
    | succ k =>
      by_cases hshort : seg.length < k + 1
      · have hrest : k + 1 - seg.length ≤ rest.flatten.length := by
          simp only [List.flatten_cons, List.length_append] at hk
          omega
        obtain ⟨bs, segs2, hrec⟩ := ih (k + 1 - seg.length) hrest
        refine ⟨seg ++ bs, segs2, ?_⟩
        rw [readFull, if_pos hshort, hrec]
      · refine ⟨seg.take (k + 1),
          if k + 1 < seg.length then seg.drop (k + 1) :: rest else rest, ?_⟩
        rw [readFull, if_neg hshort]

theorem connReadBody_spec (ks : List Nat → List Nat → Nat → Nat → Nat)
    (c : SSConn) (blen : Nat) (st : CipherSt) (hdec : c.dec = some st) :
    (connReadBody ks c blen).2.2.dec =
      some (CipherSt.mk st.iv (st.pos + (connReadBody ks c blen).1.length)) ∧
    (connReadBody ks c blen).2.2.iv = c.iv ∧
    (connReadBody ks c blen).2.2.transport.flatten =
      c.transport.flatten.drop (connReadBody ks c blen).1.length ∧
    (connReadBody ks c blen).1 =
      (xfrm ks c.key st
        (c.transport.flatten.take (connReadBody ks c blen).1.length)).1 ∧
    (connReadBody ks c blen).1.length ≤ blen ∧
    (connReadBody ks c blen).2.2.key = c.key := by
  cases hrr : rawRead c.transport blen with
  | none =>
    have hr : connReadBody ks c blen = ([], true, c) := by
      simp [connReadBody, hrr]
    rw [hr]
    refine ⟨?_, rfl, ?_, ?_, ?_, rfl⟩
    · simp [hdec]
    · simp
    · simp [xfrm]
    · simp
  | some p =>
    obtain ⟨bs, tr2⟩ := p
    obtain ⟨hbs, htr2, hble⟩ := rawRead_spec hrr
    have hr : connReadBody ks c blen = ((xfrm ks c.key st bs).1, false,
        { c with transport := tr2, dec := some (xfrm ks c.key st bs).2 }) := by
      simp [connReadBody, hrr, hdec]
    have hplen : (xfrm ks c.key st bs).1.length = bs.length := by
      simp [xfrm]
    rw [hr]
    refine ⟨?_, rfl, ?_, ?_, ?_, rfl⟩
    · simp [xfrm]
    · simpa [hplen] using htr2
    · simp only [hplen]
      rw [← hbs]
    · simp only [hplen]
      exact hble

/-- C4: on a connection whose decrypt state is unset, `Read` first consumes
exactly `ivLen` bytes from the transport (across as many short reads as
needed), initializes the decrypt state from exactly those bytes, records them
as the connection IV when none is recorded yet, and only then produces
plaintext, which is the decryption of bytes situated after the IV; on a
connection whose decrypt state is already set, `Read` leaves the recorded IV
untouched, consumes only the bytes it decrypts, and merely advances the
existing state. -/
theorem connRead_iv_once (ks : List Nat → List Nat → Nat → Nat → Nat)
    (c c2 : SSConn) (blen blen2 : Nat) (st : CipherSt)
    (hdec : c.dec = none)
    (hlen : c.ivLen ≤ c.transport.flatten.length)
    (hdec2 : c2.dec = some st) :
    ((connRead ks c blen).2.2.dec = some (CipherSt.mk
        (c.transport.flatten.take c.ivLen) (connRead ks c blen).1.length) ∧
      (connRead ks c blen).2.2.iv =
        (if c.iv = [] then c.transport.flatten.take c.ivLen else c.iv) ∧
      (connRead ks c blen).2.2.transport.flatten =
        c.transport.flatten.drop (c.ivLen + (connRead ks c blen).1.length) ∧
      (connRead ks c blen).1 =
        (xfrm ks c.key (CipherSt.mk (c.transport.flatten.take c.ivLen) 0)
          ((c.transport.flatten.drop c.ivLen).take
            (connRead ks c blen).1.length)).1 ∧
      (connRead ks c blen).1.length ≤ blen) ∧
    ((connRead ks c2 blen2).2.2.dec = some (CipherSt.mk st.iv
        (st.pos + (connRead ks c2 blen2).1.length)) ∧
      (connRead ks c2 blen2).2.2.iv = c2.iv ∧
      (connRead ks c2 blen2).2.2.transport.flatten =
        c2.transport.flatten.drop (connRead ks c2 blen2).1.length ∧
      (connRead ks c2 blen2).1 =
        (xfrm ks c2.key st
          (c2.transport.flatten.take (connRead ks c2 blen2).1.length)).1 ∧
      (connRead ks c2 blen2).1.length ≤ blen2) := by
  constructor
  · obtain ⟨ivb0, tr2, hrf⟩ := readFull_total c.transport c.ivLen hlen
    obtain ⟨hivb, hivlen, htr2⟩ := readFull_spec c.transport c.ivLen hrf
    subst hivb
    simp only [connRead, hdec, hrf]
    set c1 : SSConn :=
      { c with
        transport := tr2
        dec := some (CipherSt.mk (c.transport.flatten.take c.ivLen) 0)
        iv := if c.iv = [] then c.transport.flatten.take c.ivLen
              else c.iv } with hc1
    obtain ⟨s1, s2, s3, s4, s5, s6⟩ := connReadBody_spec ks c1 blen
      (CipherSt.mk (c.transport.flatten.take c.ivLen) 0) rfl
    have hc1tr : c1.transport = tr2 := rfl
    rw [hc1tr, htr2] at s3 s4
    refine ⟨?_, ?_, ?_, ?_, s5⟩
    · rw [s1]
      simp
    · rw [s2]
    · rw [s3, List.drop_drop]
    · exact s4
  · have h := connReadBody_spec ks c2 blen2 st hdec2
    simp only [connRead, hdec2]
    exact ⟨h.1, h.2.1, h.2.2.1, h.2.2.2.1, h.2.2.2.2.1⟩

theorem connRead_iv_once_witness :
    ((connRead (fun _ _ p b => (b + p) % 256)
        { transport := [[9, 9], [9, 9, 7, 7], [8]], sent := [], key := [0],
          ivLen := 4, iv := [], enc := none, dec := none, ota := false,
          chunkId := 0 } 10).2.2.dec = some (CipherSt.mk [9, 9, 9, 9] 2) ∧
      (connRead (fun _ _ p b => (b + p) % 256)
        { transport := [[9, 9], [9, 9, 7, 7], [8]], sent := [], key := [0],
          ivLen := 4, iv := [], enc := none, dec := none, ota := false,
          chunkId := 0 } 10).2.2.iv = [9, 9, 9, 9] ∧
      (connRead (fun _ _ p b => (b + p) % 256)
        { transport := [[9, 9], [9, 9, 7, 7], [8]], sent := [], key := [0],
          ivLen := 4, iv := [], enc := none, dec := none, ota := false,
          chunkId := 0 } 10).2.2.transport.flatten = [8] ∧
      (connRead (fun _ _ p b => (b + p) % 256)
        { transport := [[9, 9], [9, 9, 7, 7], [8]], sent := [], key := [0],
          ivLen := 4, iv := [], enc := none, dec := none, ota := false,
          chunkId := 0 } 10).1 = [7, 8] ∧
      (2 : Nat) ≤ 10) ∧
    ((connRead (fun _ _ p b => (b + p) % 256)
        { transport := [[4, 4, 4]], sent := [], key := [0], ivLen := 4,
          iv := [9], enc := none, dec := some (CipherSt.mk [9] 5),
          ota := false, chunkId := 0 } 2).2.2.dec =
        some (CipherSt.mk [9] 7) ∧
      (connRead (fun _ _ p b => (b + p) % 256)
        { transport := [[4, 4, 4]], sent := [], key := [0], ivLen := 4,
          iv := [9], enc := none, dec := some (CipherSt.mk [9] 5),
          ota := false, chunkId := 0 } 2).2.2.iv = [9] ∧
      (connRead (fun _ _ p b => (b + p) % 256)
        { transport := [[4, 4, 4]], sent := [], key := [0], ivLen := 4,
          iv := [9], enc := none, dec := some (CipherSt.mk [9] 5),
          ota := false, chunkId := 0 } 2).2.2.transport.flatten = [4] ∧
      (connRead (fun _ _ p b => (b + p) % 256)
        { transport := [[4, 4, 4]], sent := [], key := [0], ivLen := 4,
          iv := [9], enc := none, dec := some (CipherSt.mk [9] 5),
          ota := false, chunkId := 0 } 2).1 = [9, 10] ∧
      (2 : Nat) ≤ 2) :=
  connRead_iv_once (fun _ _ p b => (b + p) % 256)
    { transport := [[9, 9], [9, 9, 7, 7], [8]], sent := [], key := [0],
      ivLen := 4, iv := [], enc := none, dec := none, ota := false,
      chunkId := 0 }
    { transport := [[4, 4, 4]], sent := [], key := [0], ivLen := 4,
      iv := [9], enc := none, dec := some (CipherSt.mk [9] 5), ota := false,
      chunkId := 0 } 10 2 (CipherSt.mk [9] 5) rfl (by decide) rfl

/-! ## Write path (`Conn.Write`, `Conn.write`) and dial sequence

The write side's external effects are threaded as parameters: `es` is the
encrypt keystream, `H` the `HmacSha1` collaborator, `freshIv` the randomness
drawn by `initEncrypt`, and `wErr` whether the transport write fails. -/

/-- Modelled from the spec: `initEncrypt` (cipher file, not in the sources) —
"if `encState` unset, generate a fresh IV of the cipher's required length,
initialize `encState` from key+iv, return the IV"; the IV is stored on the
cipher (`DialWithRawAddr` writes `cipher.iv` right after calling it), and a
previously recorded IV is reused. The externally drawn randomness is the
`freshIv` argument. -/
def initEncrypt (c : SSConn) (freshIv : List Nat) : List Nat × SSConn :=
  let iv := if c.iv = [] then freshIv else c.iv
  (iv, { c with
         enc := some (CipherSt.mk iv 0)
         iv := iv })

/-- Embeds `Conn.write` (source lines 172–200): if `enc` is unset, run
`initEncrypt` and keep its IV (otherwise the local `iv` stays nil/empty);
encrypt the payload after the IV in one buffer; one transport write of
IV-plus-ciphertext; return the transport write's count. On a write error the
encrypt stream state has still advanced and nothing is recorded as
delivered. -/
def connWriteLow (es : List Nat → List Nat → Nat → Nat → Nat)
    (freshIv : List Nat) (wErr : Bool) (c : SSConn) (b : List Nat) :
    Nat × Bool × SSConn :=
  let p := match c.enc with
    | none => initEncrypt c freshIv
    | some _ => ([], c)
  let iv := p.1
  let c1 := p.2
  let st := c1.enc.getD (CipherSt.mk c1.iv 0)
  let q := xfrm es c1.key st b
  let cipherData := iv ++ q.1
  if wErr then (0, true, { c1 with enc := some q.2 })
  else (cipherData.length, false,
    { c1 with
      enc := some q.2
      sent := c1.sent ++ [cipherData] })

/-- Modelled from the spec: `otaReqChunkAuth` (OTA helper, not in the
sources) — wire chunk format `dataLen (2 bytes, big-endian) | HMAC-SHA1
truncated to 10 bytes | data`, tag key `iv ++ bigEndian32(chunkId)`. -/
def otaReqChunkAuth (H : List Nat → List Nat → List Nat) (iv : List Nat)
    (chunkId : Nat) (b : List Nat) : List Nat :=
  be16 (b.length % 65536) ++ H (iv ++ be32 (chunkId % 2 ^ 32)) b ++ b

/-- Embeds `Conn.Write` (source lines 164–170): when OTA is on, fetch and
increment the `uint32` chunk id and wrap the payload with
`otaReqChunkAuth(c.iv, chunkId, b)`; then `Conn.write`. -/
def connWrite (es : List Nat → List Nat → Nat → Nat → Nat)
    (H : List Nat → List Nat → List Nat) (freshIv : List Nat) (wErr : Bool)
    (c : SSConn) (b : List Nat) : Nat × Bool × SSConn :=
  if c.ota then
    let chunkId := c.chunkId
    let c1 := { c with chunkId := (c.chunkId + 1) % 2 ^ 32 }
    connWriteLow es freshIv wErr c1 (otaReqChunkAuth H c1.iv chunkId b)
  else connWriteLow es freshIv wErr c b

/-- C2 (code evaluation at the failing input): the first `Write` on a fresh
non-OTA connection with `ivLen = 16` and the 3-byte payload `[1,2,3]`
succeeds but returns 19 — the transport write's count, IV prefix included —
not 3, the number of caller-supplied plaintext bytes; with OTA enabled the
same call returns 31, additionally counting the 12-byte chunk overhead. -/
theorem connWrite_count_includes_overhead :
    (connWrite (fun _ _ p b => (b + p) % 256)
        (fun k m => List.replicate 10 ((k.sum + m.sum) % 256))
        (List.replicate 16 1) false
        { transport := [], sent := [], key := [0], ivLen := 16, iv := [],
          enc := none, dec := none, ota := false, chunkId := 0 }
        [1, 2, 3]).1 = 19 ∧
    (connWrite (fun _ _ p b => (b + p) % 256)
        (fun k m => List.replicate 10 ((k.sum + m.sum) % 256))
        (List.replicate 16 1) false
        { transport := [], sent := [], key := [0], ivLen := 16, iv := [],
          enc := none, dec := none, ota := false, chunkId := 0 }
        [1, 2, 3]).2.1 = false ∧
    (connWrite (fun _ _ p b => (b + p) % 256)
        (fun k m => List.replicate 10 ((k.sum + m.sum) % 256))
        (List.replicate 16 1) false
        { transport := [], sent := [], key := [0], ivLen := 16, iv := [],
          enc := none, dec := none, ota := true, chunkId := 0 }
        [1, 2, 3]).1 = 31 ∧
    (19 : Nat) ≠ [1, 2, 3].length ∧ (31 : Nat) ≠ [1, 2, 3].length := by
  refine ⟨?_, ?_, ?_, by decide, by decide⟩ <;> decide

/-! ## Dial sequence (`DialWithRawAddr`, source lines 68–90)

The external effects are collected in a `DialEnv`: the outcome of `net.Dial`,
the randomness drawn by the eager `initEncrypt` and whether that call fails,
whether the standalone `conn.Write(cipher.iv)` fails (the source discards
this write's results, so the field is deliberately never read), and whether
the address-record write `c.write(rawaddr)` fails. -/

structure DialEnv where
  dialErr : Bool
  freshIv : List Nat
  initEncErr : Bool
  ivWriteErr : Bool
  addrWriteErr : Bool
deriving DecidableEq, Repr

/-- Outcome of `DialWithRawAddr`: the returned connection (`none` = nil), the
returned error flag, whether `c.Close()` ran, and the caller's `rawaddr`
buffer after the call (the source mutates it in place on the OTA path). -/
structure DialResult where
  conn : Option SSConn
  err : Bool
  closed : Bool
  rawaddr : List Nat
deriving DecidableEq, Repr

/-- Embeds `NewConn` (source lines 24–30): an uninitialized connection
around a fresh transport (the leaky-buffer loans carry no values). -/
def newConn (key : List Nat) (ivLen : Nat) (ota : Bool) : SSConn :=
  { transport := [], sent := [], key := key, ivLen := ivLen, iv := [],
    enc := none, dec := none, ota := ota, chunkId := 0 }

/-- Modelled from the spec: `otaConnectAuth` (OTA helper, not in the
sources) — appends to the record the 10-byte handshake tag computed over it
with key `iv ++ key`; the append reallocates, leaving the argument buffer
untouched. -/
def otaConnectAuth (H : List Nat → List Nat → List Nat)
    (iv key msg : List Nat) : List Nat :=
  msg ++ H (iv ++ key) msg

/-- The in-place `rawaddr[0] |= OneTimeAuthMask` (mask `0x10`). -/
def setOtaBit : List Nat → List Nat
  | [] => []
  | b0 :: t => (b0 ||| 16) :: t

/-- Embeds `DialWithRawAddr` (source lines 68–90): dial; `NewConn`; if OTA,
eagerly `initEncrypt` (a failure is surfaced through the bare `return`,
which hands back the error together with the non-nil partially-built
connection, without closing it), write the IV standalone (the write's error
is discarded — the embedding reads no `ivWriteErr`), set the OTA bit on the
caller's buffer in place, wrap with `otaConnectAuth`; send the record via
`Conn.write`; on that write's failure `c.Close()` and return nil with the
error. -/
def DialWithRawAddr (es : List Nat → List Nat → Nat → Nat → Nat)
    (H : List Nat → List Nat → List Nat) (env : DialEnv)
    (rawaddr key : List Nat) (ivLen : Nat) (ota : Bool) : DialResult :=
  if env.dialErr then
    { conn := none, err := true, closed := false, rawaddr := rawaddr }
  else
    let c := newConn key ivLen ota
    if ota then
      if env.initEncErr then
        { conn := some c, err := true, closed := false, rawaddr := rawaddr }
      else
        let c1 := (initEncrypt c env.freshIv).2
        let c2 := { c1 with sent := c1.sent ++ [c1.iv] }
        let rawaddr1 := setOtaBit rawaddr
        let sendBuf := otaConnectAuth H c1.iv key rawaddr1
        let r := connWriteLow es env.freshIv env.addrWriteErr c2 sendBuf
        if r.2.1 then
          { conn := none, err := true, closed := true, rawaddr := rawaddr1 }
        else
          { conn := some r.2.2, err := false, closed := false,
            rawaddr := rawaddr1 }
    else
      let r := connWriteLow es env.freshIv env.addrWriteErr c rawaddr
      if r.2.1 then
        { conn := none, err := true, closed := true, rawaddr := rawaddr }
      else
        { conn := some r.2.2, err := false, closed := false,
          rawaddr := rawaddr }

/-- C6 counterexample: with OTA configured and `initEncrypt` failing, the
dial sequence returns the error together with the non-nil partially-built
connection and does not close it (the claim demands a closed connection and
a nil return on every failure after the transport opened). -/
theorem dial_initEncErr_counterexample :
    (DialWithRawAddr (fun _ _ p b => (b + p) % 256)
        (fun k m => List.replicate 10 ((k.sum + m.sum) % 256))
        { dialErr := false, freshIv := List.replicate 16 1,
          initEncErr := true, ivWriteErr := false, addrWriteErr := false }
        [3, 1, 97, 0, 80] [0] 16 true).err = true ∧
    (DialWithRawAddr (fun _ _ p b => (b + p) % 256)
        (fun k m => List.replicate 10 ((k.sum + m.sum) % 256))
        { dialErr := false, freshIv := List.replicate 16 1,
          initEncErr := true, ivWriteErr := false, addrWriteErr := false }
        [3, 1, 97, 0, 80] [0] 16 true).closed = false ∧
    (DialWithRawAddr (fun _ _ p b => (b + p) % 256)
        (fun k m => List.replicate 10 ((k.sum + m.sum) % 256))
        { dialErr := false, freshIv := List.replicate 16 1,
          initEncErr := true, ivWriteErr := false, addrWriteErr := false }
        [3, 1, 97, 0, 80] [0] 16 true).conn.isSome = true := by
  refine ⟨rfl, rfl, rfl⟩

/-- C6 (amended): a failure of the address-record write closes the
partially-built connection and returns nil with the error; but a failure of
the eager `initEncrypt` on the OTA path returns the error together with the
non-nil, un-closed partially-built connection, and a failure of the
standalone IV write is ignored entirely (the outcome does not depend on
it). -/
theorem dial_failure_paths (es : List Nat → List Nat → Nat → Nat → Nat)
    (H : List Nat → List Nat → List Nat) (env1 env2 env3 : DialEnv)
    (rawaddr key : List Nat) (ivLen : Nat) (ota : Bool)
    (h1d : env1.dialErr = false) (h1i : env1.initEncErr = false)
    (h1a : env1.addrWriteErr = true)
    (h2d : env2.dialErr = false) (h2i : env2.initEncErr = true) :
    ((DialWithRawAddr es H env1 rawaddr key ivLen ota).conn = none ∧
      (DialWithRawAddr es H env1 rawaddr key ivLen ota).err = true ∧
      (DialWithRawAddr es H env1 rawaddr key ivLen ota).closed = true) ∧
    ((DialWithRawAddr es H env2 rawaddr key ivLen true).conn =
        some (newConn key ivLen true) ∧
      (DialWithRawAddr es H env2 rawaddr key ivLen true).err = true ∧
      (DialWithRawAddr es H env2 rawaddr key ivLen true).closed = false) ∧
    DialWithRawAddr es H { env3 with ivWriteErr := true } rawaddr key ivLen
        ota =
      DialWithRawAddr es H { env3 with ivWriteErr := false } rawaddr key
        ivLen ota := by
  refine ⟨?_, ?_, rfl⟩
  · cases hota : ota <;>
      simp [DialWithRawAddr, h1d, h1i, h1a, connWriteLow]
  · simp [DialWithRawAddr, h2d, h2i]

/-- Closed instance of `dial_failure_paths`: the three environments exercise
the address-write failure, the `initEncrypt` failure, and the ignored IV
write. -/
theorem dial_failure_paths_witness :
    ((DialWithRawAddr (fun _ _ p b => (b + p) % 256)
        (fun k m => List.replicate 10 ((k.sum + m.sum) % 256))
        { dialErr := false, freshIv := List.replicate 16 1,
          initEncErr := false, ivWriteErr := false, addrWriteErr := true }
        [3, 1, 97, 0, 80] [0] 16 true).conn = none ∧
      (DialWithRawAddr (fun _ _ p b => (b + p) % 256)
        (fun k m => List.replicate 10 ((k.sum + m.sum) % 256))
        { dialErr := false, freshIv := List.replicate 16 1,
          initEncErr := false, ivWriteErr := false, addrWriteErr := true }
        [3, 1, 97, 0, 80] [0] 16 true).err = true ∧
      (DialWithRawAddr (fun _ _ p b => (b + p) % 256)
        (fun k m => List.replicate 10 ((k.sum + m.sum) % 256))
        { dialErr := false, freshIv := List.replicate 16 1,
          initEncErr := false, ivWriteErr := false, addrWriteErr := true }
        [3, 1, 97, 0, 80] [0] 16 true).closed = true) ∧
    ((DialWithRawAddr (fun _ _ p b => (b + p) % 256)
        (fun k m => List.replicate 10 ((k.sum + m.sum) % 256))
        { dialErr := false, freshIv := List.replicate 16 1,
          initEncErr := true, ivWriteErr := false, addrWriteErr := false }
        [3, 1, 97, 0, 80] [0] 16 true).conn = some (newConn [0] 16 true) ∧
      (DialWithRawAddr (fun _ _ p b => (b + p) % 256)
        (fun k m => List.replicate 10 ((k.sum + m.sum) % 256))
        { dialErr := false, freshIv := List.replicate 16 1,
          initEncErr := true, ivWriteErr := false, addrWriteErr := false }
        [3, 1, 97, 0, 80] [0] 16 true).err = true ∧
      (DialWithRawAddr (fun _ _ p b => (b + p) % 256)
        (fun k m => List.replicate 10 ((k.sum + m.sum) % 256))
        { dialErr := false, freshIv := List.replicate 16 1,
          initEncErr := true, ivWriteErr := false, addrWriteErr := false }
        [3, 1, 97, 0, 80] [0] 16 true).closed = false) ∧
    DialWithRawAddr (fun _ _ p b => (b + p) % 256)
        (fun k m => List.replicate 10 ((k.sum + m.sum) % 256))
        { dialErr := false, freshIv := [2], initEncErr := false,
          ivWriteErr := true, addrWriteErr := false }
        [3, 1, 97, 0, 80] [0] 16 true =
      DialWithRawAddr (fun _ _ p b => (b + p) % 256)
        (fun k m => List.replicate 10 ((k.sum + m.sum) % 256))
        { dialErr := false, freshIv := [2], initEncErr := false,
          ivWriteErr := false, addrWriteErr := false }
        [3, 1, 97, 0, 80] [0] 16 true :=
  dial_failure_paths (fun _ _ p b => (b + p) % 256)
    (fun k m => List.replicate 10 ((k.sum + m.sum) % 256))
    { dialErr := false, freshIv := List.replicate 16 1, initEncErr := false,
      ivWriteErr := false, addrWriteErr := true }
    { dialErr := false, freshIv := List.replicate 16 1, initEncErr := true,
      ivWriteErr := false, addrWriteErr := false }
    { dialErr := false, freshIv := [2], initEncErr := false,
      ivWriteErr := false, addrWriteErr := false }
    [3, 1, 97, 0, 80] [0] 16 true rfl rfl rfl rfl rfl

/-- C9 counterexample: dialing with OTA enabled mutates the caller-supplied
address record in place — its address-type byte 3 becomes `3 ||| 0x10 =
19` — contradicting the claim that the buffer is unchanged in either
configuration. -/
theorem dial_rawaddr_mutated_counterexample :
    (DialWithRawAddr (fun _ _ p b => (b + p) % 256)
        (fun k m => List.replicate 10 ((k.sum + m.sum) % 256))
        { dialErr := false, freshIv := List.replicate 16 1,
          initEncErr := false, ivWriteErr := false, addrWriteErr := false }
        [3, 1, 97, 0, 80] [0] 16 true).rawaddr = [19, 1, 97, 0, 80] ∧
    [19, 1, 97, 0, 80] ≠ [3, 1, 97, 0, 80] := by
  refine ⟨rfl, by decide⟩

/-- C9 (amended): the non-OTA dial leaves the caller's `rawaddr` buffer
unchanged in every outcome; the OTA dial (once `net.Dial` and `initEncrypt`
succeed) sets the `0x10` bit on the address-type byte of the caller's buffer
in place; the appended authentication tag lands in a new buffer and never
reaches the caller's. -/
theorem dial_rawaddr_mutation (es : List Nat → List Nat → Nat → Nat → Nat)
    (H : List Nat → List Nat → List Nat) (env env2 : DialEnv)
    (rawaddr key key2 : List Nat) (ivLen ivLen2 : Nat) (b0 : Nat)
    (t : List Nat)
    (h2d : env2.dialErr = false) (h2i : env2.initEncErr = false) :
    (DialWithRawAddr es H env rawaddr key ivLen false).rawaddr = rawaddr ∧
    (DialWithRawAddr es H env2 (b0 :: t) key2 ivLen2 true).rawaddr =
      (b0 ||| 16) :: t := by
  constructor
  · by_cases hd : env.dialErr <;> simp only [DialWithRawAddr, hd] <;> simp
    split <;> rfl
  · simp only [DialWithRawAddr, h2d, h2i]
    simp [setOtaBit]
    split <;> rfl

/-- Closed instance of `dial_rawaddr_mutation`: a non-OTA dial returns the
record `03 01 61 00 50` untouched; the OTA dial returns it with byte 0
changed to `13` (hex). -/
theorem dial_rawaddr_mutation_witness :
    (DialWithRawAddr (fun _ _ p b => (b + p) % 256)
        (fun k m => List.replicate 10 ((k.sum + m.sum) % 256))
        { dialErr := false, freshIv := List.replicate 16 1,
          initEncErr := false, ivWriteErr := false, addrWriteErr := false }
        [3, 1, 97, 0, 80] [0] 16 false).rawaddr = [3, 1, 97, 0, 80] ∧
    (DialWithRawAddr (fun _ _ p b => (b + p) % 256)
        (fun k m => List.replicate 10 ((k.sum + m.sum) % 256))
        { dialErr := false, freshIv := List.replicate 16 1,
          initEncErr := false, ivWriteErr := false, addrWriteErr := false }
        (3 :: [1, 97, 0, 80]) [0] 16 true).rawaddr =
      (3 ||| 16) :: [1, 97, 0, 80] :=
  dial_rawaddr_mutation (fun _ _ p b => (b + p) % 256)
    (fun k m => List.replicate 10 ((k.sum + m.sum) % 256))
    { dialErr := false, freshIv := List.replicate 16 1, initEncErr := false,
      ivWriteErr := false, addrWriteErr := false }
    { dialErr := false, freshIv := List.replicate 16 1, initEncErr := false,
      ivWriteErr := false, addrWriteErr := false }
    [3, 1, 97, 0, 80] [0] [0] 16 16 3 [1, 97, 0, 80] rfl rfl

/-! ## Buffer identity (`GetIv`, `GetKey`)

`GetIv`/`GetKey` exist to hand callers a buffer they may scribble on — the
OTA relay appends the chunk-id bytes to `GetIv`'s result — without touching
the session's stored slices. To express freshness and (non-)aliasing, the
byte buffers in play are embedded as indices (`Nat` references) into a heap,
a list of buffers. -/

/-- Heap of byte buffers; a reference is an index. -/
abbrev Heap : Type := List (List Nat)

/-- Contents at a reference (out-of-range reads as empty). -/
def hGet (h : Heap) (r : Nat) : List Nat := List.getD h r []

/-- In-place overwrite of the buffer at a reference: the mutation a caller
could perform on a returned slice. -/
def hSet (h : Heap) (r : Nat) (v : List Nat) : Heap := List.set h r v

/-- Allocation of a fresh buffer (Go `make`): contents plus the new
reference. -/
def hAlloc (h : Heap) (v : List Nat) : Heap × Nat := (h ++ [v], h.length)

/-- Embeds `Conn.GetIv` (source lines 101–105) at heap level: `make` a fresh
buffer and `copy` the stored IV's contents into it; the caller receives the
new reference. -/
def getIvH (h : Heap) (ivRef : Nat) : Heap × Nat := hAlloc h (hGet h ivRef)

/-- Embeds `Conn.GetKey` (source lines 107–111); same shape as `GetIv`. -/
def getKeyH (h : Heap) (keyRef : Nat) : Heap × Nat := hAlloc h (hGet h keyRef)

/-- Go's `append(s, extra...)` on a slice without spare capacity (as
`GetIv`'s result, `make`d at exact length): allocates a new buffer. This is
the relay's `append(src.GetIv(), chunkIdBytes...)`. -/
def appendH (h : Heap) (r : Nat) (extra : List Nat) : Heap × Nat :=
  hAlloc h (hGet h r ++ extra)

theorem hGet_alloc_new (h : Heap) (v : List Nat) :
    hGet (h ++ [v]) h.length = v := by
  simp [hGet, Heap, List.getD_eq_getElem?_getD,
    List.getElem?_append_right (le_refl h.length)]

theorem hGet_alloc_old (h : Heap) (v : List Nat) (r : Nat)
    (hr : r < h.length) : hGet (h ++ [v]) r = hGet h r := by
  simp [hGet, Heap, List.getD_eq_getElem?_getD, List.getElem?_append, hr]

theorem hGet_set_ne (h : Heap) (r1 r2 : Nat) (v : List Nat)
    (hne : r1 ≠ r2) : hGet (hSet h r1 v) r2 = hGet h r2 := by
  simp [hGet, hSet, Heap, List.getD_eq_getElem?_getD,
    List.getElem?_set_ne hne]

/-- C10: `GetIv` and `GetKey` return freshly allocated buffers whose
contents equal the stored iv and key; overwriting the returned buffer, or
appending to it as the OTA relay's tag computation does, leaves the stored
iv and key unchanged. -/
theorem getIv_getKey_fresh (h : Heap) (ivRef keyRef : Nat)
    (v extra : List Nat)
    (hiv : ivRef < List.length h) (hkey : keyRef < List.length h) :
    (hGet (getIvH h ivRef).1 (getIvH h ivRef).2 = hGet h ivRef ∧
      (getIvH h ivRef).2 ≠ ivRef ∧
      hGet (hSet (getIvH h ivRef).1 (getIvH h ivRef).2 v) ivRef =
        hGet h ivRef ∧
      hGet (appendH (getIvH h ivRef).1 (getIvH h ivRef).2 extra).1 ivRef =
        hGet h ivRef) ∧
    (hGet (getKeyH h keyRef).1 (getKeyH h keyRef).2 = hGet h keyRef ∧
      (getKeyH h keyRef).2 ≠ keyRef ∧
      hGet (hSet (getKeyH h keyRef).1 (getKeyH h keyRef).2 v) keyRef =
        hGet h keyRef) := by
  constructor
  · dsimp only [getIvH, appendH, hAlloc]
    refine ⟨hGet_alloc_new h (hGet h ivRef), by omega, ?_, ?_⟩
    · rw [hGet_set_ne _ _ _ _ (by omega : List.length h ≠ ivRef)]
      exact hGet_alloc_old h _ ivRef hiv
    · rw [hGet_alloc_old _ _ ivRef
        (by simp only [List.length_append, List.length_cons]; omega)]
      exact hGet_alloc_old h _ ivRef hiv
  · dsimp only [getKeyH, hAlloc]
    refine ⟨hGet_alloc_new h (hGet h keyRef), by omega, ?_⟩
    rw [hGet_set_ne _ _ _ _ (by omega : List.length h ≠ keyRef)]
    exact hGet_alloc_old h _ keyRef hkey

/-- Closed instance of `getIv_getKey_fresh` on a two-buffer heap holding iv
`[1,2]` and key `[3]`, with an overwrite `[9]` and the relay's 4-byte append
`[0,0,0,1]`. -/
theorem getIv_getKey_fresh_witness :
    (hGet (getIvH [[1, 2], [3]] 0).1 (getIvH [[1, 2], [3]] 0).2 = [1, 2] ∧
      (getIvH [[1, 2], [3]] 0).2 ≠ 0 ∧
      hGet (hSet (getIvH [[1, 2], [3]] 0).1 (getIvH [[1, 2], [3]] 0).2 [9])
        0 = [1, 2] ∧
      hGet (appendH (getIvH [[1, 2], [3]] 0).1 (getIvH [[1, 2], [3]] 0).2
        [0, 0, 0, 1]).1 0 = [1, 2]) ∧
    (hGet (getKeyH [[1, 2], [3]] 1).1 (getKeyH [[1, 2], [3]] 1).2 = [3] ∧
      (getKeyH [[1, 2], [3]] 1).2 ≠ 1 ∧
      hGet (hSet (getKeyH [[1, 2], [3]] 1).1 (getKeyH [[1, 2], [3]] 1).2 [9])
        1 = [3]) :=
  getIv_getKey_fresh [[1, 2], [3]] 0 1 [9] [0, 0, 0, 1] (by decide)
    (by decide)
